import Mathlib

/-!
Shallow embedding of `file_server/src/routes/file.rs` from the
filegarden-backend repository.

Strings are modelled at the byte level as `List Nat` of UTF-8 code units
(each `< 256`).  The `percent_encoding` crate's `percent_decode_str`,
`utf8_percent_encode` and the `AsciiSet` constants are embedded faithfully:

* decoding is lenient: a `%` not followed by two hex digits is passed
  through literally (as in `percent_encoding::after_percent_sign`);
* `decode_utf8` validates the decoded bytes against the standard UTF-8
  well-formedness table used by Rust's `str::from_utf8`;
* encoding escapes every non-ASCII byte and every ASCII byte in the
  configured `AsciiSet`, producing uppercase hex.

`parse_file_route_path`'s `expect` (a panic when the path lacks a leading
slash) is modelled by an `Option`, and the route handler `get` returns an
explicit four-variant `Outcome`.
-/

namespace FileRoute

/-- Bytes of an ASCII string literal, used only to write concrete inputs. -/
def asciiBytes (s : String) : List Nat := s.data.map Char.toNat

/-- ASCII alphanumeric test (`0-9`, `A-Z`, `a-z`). -/
def isAsciiAlnum (b : Nat) : Bool :=
  decide ((48 ≤ b ∧ b ≤ 57) ∨ (65 ≤ b ∧ b ≤ 90) ∨ (97 ≤ b ∧ b ≤ 122))

/-- The crate's `NON_ALPHANUMERIC` ASCII set (membership function). -/
def NON_ALPHANUMERIC : Nat → Bool := fun b => !(isAsciiAlnum b)

/-- `AsciiSet::remove`. -/
def removeByte (s : Nat → Bool) (c : Nat) : Nat → Bool :=
  fun b => if b = c then false else s b

/-- `COMPONENT`: `NON_ALPHANUMERIC` with `- _ . ! ~ * ' ( )` removed. -/
def COMPONENT : Nat → Bool :=
  removeByte (removeByte (removeByte (removeByte (removeByte (removeByte
    (removeByte (removeByte (removeByte NON_ALPHANUMERIC 45) 95) 46) 33)
    126) 42) 39) 40) 41

/-- `COMPONENT_IGNORING_SLASH`: `COMPONENT` with `/` removed. -/
def COMPONENT_IGNORING_SLASH : Nat → Bool := removeByte COMPONENT 47

/-- `AsciiSet::should_percent_encode`: escape every non-ASCII byte and
every ASCII byte in the set. -/
def shouldEscape (b : Nat) : Bool :=
  decide (128 ≤ b) || COMPONENT_IGNORING_SLASH b

/-- Uppercase hex digit of a nibble (`0-9`, `A-F`), as in the crate's
percent-encode table. -/
def hexDigitU (n : Nat) : Nat := if n < 10 then 48 + n else 55 + n

/-- `utf8_percent_encode` with a given escape decision, specialised to
`COMPONENT_IGNORING_SLASH` as in the handler. -/
def percentEncode : List Nat → List Nat
  | [] => []
  | b :: rest =>
    (if shouldEscape b then [37, hexDigitU (b / 16), hexDigitU (b % 16)]
     else [b]) ++ percentEncode rest

/-- `char::to_digit(16)`: the value of a hex digit byte, upper or lower
case, or `none`. -/
def hexVal (b : Nat) : Option Nat :=
  if 48 ≤ b ∧ b ≤ 57 then some (b - 48)
  else if 65 ≤ b ∧ b ≤ 70 then some (b - 55)
  else if 97 ≤ b ∧ b ≤ 102 then some (b - 87)
  else none

/-- `percent_decode`: a `%` followed by two hex digits becomes the decoded
byte; otherwise the `%` is passed through literally and scanning resumes at
the next byte. -/
def percentDecode : List Nat → List Nat
  | [] => []
  | 37 :: h :: l :: rest =>
    match hexVal h, hexVal l with
    | some hv, some lv => (hv * 16 + lv) :: percentDecode rest
    | _, _ => 37 :: percentDecode (h :: l :: rest)
  | b :: rest => b :: percentDecode rest

/-- UTF-8 continuation byte (`0x80`–`0xBF`). -/
def isCont (b : Nat) : Bool := decide (128 ≤ b ∧ b ≤ 191)

/-- UTF-8 well-formedness of a byte sequence, following the validation
table of Rust's `str::from_utf8` (overlong forms and surrogates rejected). -/
def isUtf8 : List Nat → Bool
  | [] => true
  | b :: rest =>
    if b ≤ 127 then isUtf8 rest
    else if 194 ≤ b ∧ b ≤ 223 then
      match rest with
      | c1 :: rest2 => isCont c1 && isUtf8 rest2
      | _ => false
    else if b = 224 then
      match rest with
      | c1 :: c2 :: rest2 =>
        decide (160 ≤ c1 ∧ c1 ≤ 191) && isCont c2 && isUtf8 rest2
      | _ => false
    else if (225 ≤ b ∧ b ≤ 236) ∨ b = 238 ∨ b = 239 then
      match rest with
      | c1 :: c2 :: rest2 => isCont c1 && isCont c2 && isUtf8 rest2
      | _ => false
    else if b = 237 then
      match rest with
      | c1 :: c2 :: rest2 =>
        decide (128 ≤ c1 ∧ c1 ≤ 159) && isCont c2 && isUtf8 rest2
      | _ => false
    else if b = 240 then
      match rest with
      | c1 :: c2 :: c3 :: rest2 =>
        decide (144 ≤ c1 ∧ c1 ≤ 191) && isCont c2 && isCont c3 && isUtf8 rest2
      | _ => false
    else if 241 ≤ b ∧ b ≤ 243 then
      match rest with
      | c1 :: c2 :: c3 :: rest2 =>
        isCont c1 && isCont c2 && isCont c3 && isUtf8 rest2
      | _ => false
    else if b = 244 then
      match rest with
      | c1 :: c2 :: c3 :: rest2 =>
        decide (128 ≤ c1 ∧ c1 ≤ 143) && isCont c2 && isCont c3 && isUtf8 rest2
      | _ => false
    else false

/-- `Cow::decode_utf8`: the decoded bytes if they are valid UTF-8. -/
def decodeUtf8 (bs : List Nat) : Option (List Nat) :=
  if isUtf8 bs then some bs else none

/-- `parse_file_route_path`: strip the mandatory leading `/` (the source's
`expect`, i.e. a panic, is `none` here), then split at the first further
`/` byte, or pair the rest with the root value `/`. -/
def parse_file_route_path (path : List Nat) : Option (List Nat × List Nat) :=
  match path with
  | b :: rest =>
    if b = 47 then
      match rest.findIdx? (fun x => x == 47) with
      | some i => some (rest.take i, rest.drop i)
      | none => some (rest, [47])
    else none
  | [] => none

/-- `concat_path_and_query`: append `?` and the query when one exists. -/
def concat_path_and_query (path : List Nat) (query : Option (List Nat)) :
    List Nat :=
  match query with
  | none => path
  | some q => path ++ 63 :: q

/-- The start of a file ID query parameter, `"_id="`. -/
def FILE_ID_QUERY_KEY_EQ : List Nat := [95, 105, 100, 61]

/-- `str::split('&')` on bytes: always at least one (possibly empty)
segment. -/
def splitAmp : List Nat → List (List Nat)
  | [] => [[]]
  | b :: rest =>
    if b = 38 then [] :: splitAmp rest
    else
      match splitAmp rest with
      | s :: ss => (b :: s) :: ss
      | [] => [[b]]

/-- `str::strip_prefix` on bytes: the remainder after an exact leading
match. -/
def stripLead : List Nat → List Nat → Option (List Nat)
  | [], s => some s
  | _ :: _, [] => none
  | p :: ps, b :: bs => if p = b then stripLead ps bs else none

/-- `get_queried_file_id`: first `&`-segment of the query that starts with
`"_id="`, with that lead removed. -/
def get_queried_file_id (query : Option (List Nat)) : Option (List Nat) :=
  match query with
  | none => none
  | some q => (splitAmp q).findSome? (stripLead FILE_ID_QUERY_KEY_EQ)

/-- The result of the route handler, as seen by this layer. -/
inductive Outcome where
  | badRequest : Outcome
  | redirect : List Nat → Outcome
  | panic : Outcome
  | resolved : List Nat → List Nat → Option (List Nat) → Outcome
deriving DecidableEq

/-- Whether an outcome is a redirect. -/
def Outcome.isRedirect : Outcome → Bool
  | .redirect _ => true
  | _ => false

/-- Whether an outcome is a resolved locator. -/
def Outcome.isResolved : Outcome → Bool
  | .resolved _ _ _ => true
  | _ => false

/-- The route handler `get`: decode the raw path (client error on invalid
UTF-8), re-encode it, redirect when the canonical encoding differs from the
raw path, otherwise decompose the decoded path and extract the queried file
ID. -/
def get (initial_path : List Nat) (query : Option (List Nat)) : Outcome :=
  match decodeUtf8 (percentDecode initial_path) with
  | none => Outcome.badRequest
  | some path =>
    let normalized_encoded_path := percentEncode path
    if initial_path ≠ normalized_encoded_path then
      Outcome.redirect (concat_path_and_query normalized_encoded_path query)
    else
      match parse_file_route_path path with
      | none => Outcome.panic
      | some (user_identifier, file_path) =>
        Outcome.resolved user_identifier file_path (get_queried_file_id query)

/-! ### Definitions transcribed from the specification's words, for
refinement claims -/

/-- The bytes the spec's encoding rule leaves unescaped: ASCII letters,
ASCII digits, and `- _ . ! ~ * ' ( ) /`. -/
def specAllowedByte (b : Nat) : Bool :=
  decide ((65 ≤ b ∧ b ≤ 90) ∨ (97 ≤ b ∧ b ≤ 122) ∨ (48 ≤ b ∧ b ≤ 57)) ||
    (b == 45) || (b == 95) || (b == 46) || (b == 33) || (b == 126) ||
    (b == 42) || (b == 39) || (b == 40) || (b == 41) || (b == 47)

/-- The spec's encoding rule: keep exactly the allowed bytes, escape every
other byte as `%` plus two uppercase hex digits. -/
def specEncode : List Nat → List Nat
  | [] => []
  | b :: rest =>
    (if specAllowedByte b then [b]
     else [37, hexDigitU (b / 16), hexDigitU (b % 16)]) ++ specEncode rest

/-- Split a query segment at its first `=` into key and value portions. -/
def splitFirstEq : List Nat → Option (List Nat × List Nat)
  | [] => none
  | b :: rest =>
    if b = 61 then some ([], rest)
    else
      match splitFirstEq rest with
      | some (k, v) => some (b :: k, v)
      | none => none

/-- The spec's override extraction on one segment: the value portion when
the key portion is exactly `_id`. -/
def specSegmentValue (s : List Nat) : Option (List Nat) :=
  match splitFirstEq s with
  | some (k, v) => if k = [95, 105, 100] then some v else none
  | none => none

/-- The spec's override extraction: the value of the first `&`-delimited
segment whose key exactly matches `_id`; none when no query is present or
no segment matches. -/
def specOverride (query : Option (List Nat)) : Option (List Nat) :=
  match query with
  | none => none
  | some q => (splitAmp q).findSome? specSegmentValue

/-! ### Helper lemmas -/

/-- Decoding steps over any byte other than `%`. -/
lemma pd_cons_ne (b : Nat) (rest : List Nat) (hb : b ≠ 37) :
    percentDecode (b :: rest) = b :: percentDecode rest := by
  match rest with
  | [] => simp [percentDecode, hb]
  | [x] => simp [percentDecode, hb]
  | h :: l :: t => simp [percentDecode, hb]

/-- Decoding a valid escape sequence. -/
lemma pd_escape (h l : Nat) (rest : List Nat) (hv lv : Nat)
    (hh : hexVal h = some hv) (hl : hexVal l = some lv) :
    percentDecode (37 :: h :: l :: rest) = (hv * 16 + lv) :: percentDecode rest := by
  simp [percentDecode, hh, hl]

/-- The uppercase hex digit of a nibble decodes back to that nibble. -/
lemma hexVal_hexDigitU (n : Nat) (hn : n < 16) :
    hexVal (hexDigitU n) = some n := by
  revert n hn
  decide

/-- `%` is always escaped by the component set. -/
lemma shouldEscape_37 : shouldEscape 37 = true := by decide

/-- `/` is never escaped by the slash-ignoring component set. -/
lemma shouldEscape_47 : shouldEscape 47 = false := by decide

/-- Unfolding of the encoder on a kept byte. -/
lemma pe_cons_keep (b : Nat) (rest : List Nat) (hb : shouldEscape b = false) :
    percentEncode (b :: rest) = b :: percentEncode rest := by
  simp [percentEncode, hb]

/-- Unfolding of the encoder on an escaped byte. -/
lemma pe_cons_escape (b : Nat) (rest : List Nat) (hb : shouldEscape b = true) :
    percentEncode (b :: rest) =
      37 :: hexDigitU (b / 16) :: hexDigitU (b % 16) :: percentEncode rest := by
  simp [percentEncode, hb]

/-- Round trip: percent-decoding a percent-encoded byte string restores it
exactly. -/
lemma percentDecode_percentEncode (p : List Nat) (hb : ∀ b ∈ p, b < 256) :
    percentDecode (percentEncode p) = p := by
  induction p with
  | nil => rfl
  | cons b rest ih =>
    have hb' : ∀ x ∈ rest, x < 256 := fun x hx => hb x (List.mem_cons_of_mem _ hx)
    have hblt : b < 256 := hb b (List.mem_cons_self _ _)
    by_cases hesc : shouldEscape b = true
    · rw [pe_cons_escape b rest hesc]
      have hdiv : b / 16 < 16 := by omega
      have hmod : b % 16 < 16 := by omega
      rw [pd_escape _ _ _ _ _ (hexVal_hexDigitU _ hdiv) (hexVal_hexDigitU _ hmod)]
      rw [ih hb']
      congr 1
      omega
    · have hne : shouldEscape b = false := by
        simpa using hesc
      have hb37 : b ≠ 37 := by
        intro h
        rw [h, shouldEscape_37] at hne
        exact Bool.noConfusion hne
      rw [pe_cons_keep b rest hne, pd_cons_ne b _ hb37, ih hb']

/-- Unfolding of `get` when the decoded path is valid UTF-8. -/
lemma get_eq_of_utf8 (r : List Nat) (q : Option (List Nat))
    (hu : isUtf8 (percentDecode r) = true) :
    get r q =
      if r ≠ percentEncode (percentDecode r) then
        Outcome.redirect
          (concat_path_and_query (percentEncode (percentDecode r)) q)
      else
        match parse_file_route_path (percentDecode r) with
        | none => Outcome.panic
        | some (o, f) => Outcome.resolved o f (get_queried_file_id q) := by
  simp [get, decodeUtf8, hu]

/-- `get` reports a bad request exactly when the decoded path bytes are not
valid UTF-8. -/
lemma get_badRequest_iff (r : List Nat) (q : Option (List Nat)) :
    get r q = Outcome.badRequest ↔ isUtf8 (percentDecode r) = false := by
  cases hu : isUtf8 (percentDecode r) with
  | false => simp [get, decodeUtf8, hu]
  | true =>
    rw [get_eq_of_utf8 r q hu]
    simp only [Bool.true_eq_false, iff_false]
    by_cases hr : r = percentEncode (percentDecode r)
    · rw [if_neg (not_not_intro hr)]
      cases parse_file_route_path (percentDecode r) with
      | none => simp
      | some of =>
        obtain ⟨o, f⟩ := of
        simp
    · rw [if_pos hr]
      simp

/-- `stripLead` succeeds exactly on lists extending the given lead. -/
lemma stripLead_eq_some (pre : List Nat) :
    ∀ s v : List Nat, stripLead pre s = some v ↔ s = pre ++ v := by
  induction pre with
  | nil =>
    intro s v
    simp [stripLead]
  | cons p ps ih =>
    intro s v
    cases s with
    | nil => simp [stripLead]
    | cons b bs =>
      by_cases hpb : p = b
      · subst hpb
        simp [stripLead, ih bs v]
      · simp [stripLead, hpb, Ne.symm hpb]

/-- `splitFirstEq` succeeds exactly when a first `=` exists, returning the
`=`-free key before it and everything after it. -/
lemma splitFirstEq_eq_some :
    ∀ s k v : List Nat,
      splitFirstEq s = some (k, v) ↔ s = k ++ 61 :: v ∧ 61 ∉ k := by
  intro s
  induction s with
  | nil =>
    intro k v
    constructor
    · intro h
      exact absurd h (by simp [splitFirstEq])
    · rintro ⟨h, -⟩
      exact absurd h (by simp)
  | cons b rest ih =>
    intro k v
    by_cases hb : b = 61
    · subst hb
      rw [show splitFirstEq (61 :: rest) = some ([], rest) from by
        simp [splitFirstEq]]
      constructor
      · intro h
        simp only [Option.some.injEq, Prod.mk.injEq] at h
        obtain ⟨hk, hv⟩ := h
        rw [← hk, ← hv]
        exact ⟨rfl, by simp⟩
      · rintro ⟨heq, hnot⟩
        cases k with
        | nil =>
          simp only [List.nil_append, List.cons.injEq] at heq
          simp [heq.2]
        | cons a ks =>
          exfalso
          simp only [List.cons_append, List.cons.injEq] at heq
          exact hnot (by rw [← heq.1]; exact List.mem_cons_self _ _)
    · rw [show splitFirstEq (b :: rest) =
          (match splitFirstEq rest with
           | some (k, v) => some (b :: k, v)
           | none => none) from by
        simp [splitFirstEq, hb]]
      cases hsp : splitFirstEq rest with
      | none =>
        constructor
        · intro h
          exact absurd h (by simp)
        · rintro ⟨heq, hnot⟩
          exfalso
          cases k with
          | nil =>
            simp only [List.nil_append, List.cons.injEq] at heq
            exact hb heq.1
          | cons a ks =>
            simp only [List.cons_append, List.cons.injEq] at heq
            have hr : splitFirstEq rest = some (ks, v) :=
              (ih ks v).mpr ⟨heq.2, fun hm => hnot (List.mem_cons_of_mem _ hm)⟩
            rw [hr] at hsp
            exact absurd hsp (by simp)
      | some kv =>
        obtain ⟨k0, v0⟩ := kv
        simp only [Option.some.injEq, Prod.mk.injEq]
        have hr := (ih k0 v0).mp hsp
        constructor
        · rintro ⟨hk, hv⟩
          subst hv
          rw [← hk]
          constructor
          · simp [hr.1]
          · intro hm
            rcases List.mem_cons.mp hm with h1 | h2
            · exact hb h1.symm
            · exact hr.2 h2
        · rintro ⟨heq, hnot⟩
          cases k with
          | nil =>
            simp only [List.nil_append, List.cons.injEq] at heq
            exact absurd heq.1 hb
          | cons a ks =>
            simp only [List.cons_append, List.cons.injEq] at heq
            have hrest : splitFirstEq rest = some (ks, v) :=
              (ih ks v).mpr ⟨heq.2, fun hm => hnot (List.mem_cons_of_mem _ hm)⟩
            rw [hrest] at hsp
            simp only [Option.some.injEq, Prod.mk.injEq] at hsp
            exact ⟨by rw [heq.1, hsp.1], hsp.2.symm⟩

/-- The spec's single-segment extraction succeeds exactly on segments of
the shape `_id=` followed by the value. -/
lemma specSegmentValue_eq_some (s v : List Nat) :
    specSegmentValue s = some v ↔ s = [95, 105, 100, 61] ++ v := by
  unfold specSegmentValue
  cases hsp : splitFirstEq s with
  | none =>
    constructor
    · intro h
      exact absurd h (by simp)
    · intro h
      exfalso
      have hs : splitFirstEq s = some ([95, 105, 100], v) :=
        (splitFirstEq_eq_some s _ v).mpr ⟨by simpa using h, by decide⟩
      rw [hs] at hsp
      exact absurd hsp (by simp)
  | some kv =>
    obtain ⟨k, v0⟩ := kv
    have hr := (splitFirstEq_eq_some s k v0).mp hsp
    by_cases hk : k = [95, 105, 100]
    · subst hk
      simp only [eq_self_iff_true, if_true, Option.some.injEq]
      constructor
      · intro h
        rw [← h]
        exact hr.1.trans (by simp)
      · intro h
        have h2 := hr.1.symm.trans h
        simpa using h2
    · simp only [if_neg hk]
      constructor
      · intro h
        exact absurd h (by simp)
      · intro h
        exfalso
        have hs : splitFirstEq s = some ([95, 105, 100], v) :=
          (splitFirstEq_eq_some s _ v).mpr ⟨by simpa using h, by decide⟩
        rw [hs] at hsp
        simp only [Option.some.injEq, Prod.mk.injEq] at hsp
        exact hk hsp.1.symm

/-- On every query segment, the source's strip-the-lead extraction agrees
with the spec's key-equality extraction. -/
lemma stripLead_eq_specSegmentValue (s : List Nat) :
    stripLead FILE_ID_QUERY_KEY_EQ s = specSegmentValue s := by
  cases ha : stripLead FILE_ID_QUERY_KEY_EQ s with
  | none =>
    cases hb : specSegmentValue s with
    | none => rfl
    | some v =>
      exfalso
      have h1 := (specSegmentValue_eq_some s v).mp hb
      have h2 : stripLead FILE_ID_QUERY_KEY_EQ s = some v :=
        (stripLead_eq_some _ s v).mpr (by simpa [FILE_ID_QUERY_KEY_EQ] using h1)
      rw [ha] at h2
      exact absurd h2 (by simp)
  | some v =>
    have h1 := (stripLead_eq_some _ s v).mp ha
    exact ((specSegmentValue_eq_some s v).mpr
      (by simpa [FILE_ID_QUERY_KEY_EQ] using h1)).symm

set_option maxRecDepth 8000 in
/-- Escape decisions of the embedded `AsciiSet` agree with the spec's
allowed-character list on all bytes. -/
lemma shouldEscape_eq_not_specAllowed :
    ∀ b : Nat, b < 256 → shouldEscape b = !specAllowedByte b := by
  decide

/-- The source's encoder equals the spec's encoding rule on byte strings. -/
lemma percentEncode_eq_specEncode (p : List Nat) (hb : ∀ b ∈ p, b < 256) :
    percentEncode p = specEncode p := by
  induction p with
  | nil => rfl
  | cons b rest ih =>
    have hb' : ∀ x ∈ rest, x < 256 := fun x hx => hb x (List.mem_cons_of_mem _ hx)
    have hblt : b < 256 := hb b (List.mem_cons_self _ _)
    have h := shouldEscape_eq_not_specAllowed b hblt
    unfold percentEncode specEncode
    rw [ih hb', h]
    cases hsa : specAllowedByte b with
    | false => simp
    | true => simp

/-- Uppercase hex digits are never the `/` byte. -/
lemma hexDigitU_ne_47 : ∀ n : Nat, n < 16 → hexDigitU n ≠ 47 := by
  decide

/-- Encoding preserves the number of `/` bytes exactly. -/
lemma count_47_percentEncode (p : List Nat) (hb : ∀ b ∈ p, b < 256) :
    (percentEncode p).count 47 = p.count 47 := by
  induction p with
  | nil => rfl
  | cons b rest ih =>
    have hb' : ∀ x ∈ rest, x < 256 := fun x hx => hb x (List.mem_cons_of_mem _ hx)
    have hblt : b < 256 := hb b (List.mem_cons_self _ _)
    by_cases hesc : shouldEscape b = true
    · have hb47 : b ≠ 47 := by
        intro h
        rw [h, shouldEscape_47] at hesc
        exact Bool.noConfusion hesc

      rw [pe_cons_escape b rest hesc]
      have h1 : hexDigitU (b / 16) ≠ 47 := hexDigitU_ne_47 _ (by omega)
      have h2 : hexDigitU (b % 16) ≠ 47 := hexDigitU_ne_47 _ (by omega)
      simp [List.count_cons, ih hb', hb47, h1, h2]
    · have hne : shouldEscape b = false := by simpa using hesc
      rw [pe_cons_keep b rest hne]
      simp [List.count_cons, ih hb']

/-- Decomposition of a path with a leading slash always succeeds, and
rejoining the two parts restores the stripped remainder (or the remainder
was slash-free and the file path is the root value). -/
lemma parse_cons_47 (rest : List Nat) :
    ∃ o f, parse_file_route_path (47 :: rest) = some (o, f) ∧
      (o ++ f = rest ∨ (f = [47] ∧ o = rest)) := by
  cases hidx : rest.findIdx? (fun x => x == 47) with
  | some i =>
    exact ⟨rest.take i, rest.drop i, by simp [parse_file_route_path, hidx],
      Or.inl (List.take_append_drop i rest)⟩
  | none =>
    exact ⟨rest, [47], by simp [parse_file_route_path, hidx], Or.inr ⟨rfl, rfl⟩⟩

/-! ### Claims -/

/-- C1 counterexample: on the already-canonical input `/Alice/My%20File.txt`
the handler resolves to the decoded resource path `/My File.txt`, which is
not the canonical percent-encoded form `/My%20File.txt` the claim names. -/
theorem claim1_counterexample :
    get (asciiBytes "/Alice/My%20File.txt") none =
      Outcome.resolved (asciiBytes "Alice") (asciiBytes "/My File.txt") none ∧
    asciiBytes "/My File.txt" ≠ asciiBytes "/My%20File.txt" := by
  exact ⟨by decide, by decide⟩

/-- C1 (amended): for every request whose raw path starts with `/` and
already equals its canonical encoding, the handler resolves, and the owner
identifier and resource path it returns decompose the Decoded Path: they
are substrings of the decoded path, and rejoining them (`/` then owner then
resource path, or, when the resource path is the root value `/`, `/` then
owner) reconstructs the decoded path. -/
theorem claim1_decomposition (r : List Nat) (q : Option (List Nat))
    (hs : ∃ t, r = 47 :: t)
    (hu : isUtf8 (percentDecode r) = true)
    (hc : percentEncode (percentDecode r) = r) :
    ∃ o f, get r q = Outcome.resolved o f (get_queried_file_id q) ∧
      (47 :: (o ++ f) = percentDecode r ∨
        (f = [47] ∧ 47 :: o = percentDecode r)) ∧
      (∃ s t, s ++ o ++ t = percentDecode r) ∧
      (∃ s t, s ++ f ++ t = percentDecode r) := by
  obtain ⟨t0, rfl⟩ := hs
  have hpd : percentDecode (47 :: t0) = 47 :: percentDecode t0 :=
    pd_cons_ne 47 t0 (by decide)
  obtain ⟨o, f, hparse, hjoin⟩ := parse_cons_47 (percentDecode t0)
  refine ⟨o, f, ?_, ?_, ?_, ?_⟩
  · rw [get_eq_of_utf8 _ q hu, if_neg (not_not_intro hc.symm), hpd, hparse]
  · rcases hjoin with h | ⟨hf, ho⟩
    · left
      rw [hpd, h]
    · right
      exact ⟨hf, by rw [hpd, ho]⟩
  · rcases hjoin with h | ⟨hf, ho⟩
    · exact ⟨[47], f, by rw [hpd, ← h]; rfl⟩
    · exact ⟨[47], [], by rw [hpd, ho]; simp⟩
  · rcases hjoin with h | ⟨hf, ho⟩
    · exact ⟨47 :: o, [], by rw [hpd, ← h]; simp⟩
    · exact ⟨[], percentDecode t0, by rw [hpd, hf]; rfl⟩

/-- C1 witness: the amended decomposition at the concrete canonical input
`/Alice/My%20File.txt`. -/
theorem claim1_witness :
    isUtf8 (percentDecode (asciiBytes "/Alice/My%20File.txt")) = true ∧
    percentEncode (percentDecode (asciiBytes "/Alice/My%20File.txt")) =
      asciiBytes "/Alice/My%20File.txt" ∧
    (∃ o f, get (asciiBytes "/Alice/My%20File.txt") none =
        Outcome.resolved o f (get_queried_file_id none) ∧
      (47 :: (o ++ f) = percentDecode (asciiBytes "/Alice/My%20File.txt") ∨
        (f = [47] ∧
          47 :: o = percentDecode (asciiBytes "/Alice/My%20File.txt"))) ∧
      (∃ s t, s ++ o ++ t = percentDecode (asciiBytes "/Alice/My%20File.txt")) ∧
      (∃ s t, s ++ f ++ t =
        percentDecode (asciiBytes "/Alice/My%20File.txt"))) :=
  ⟨by decide, by decide,
    claim1_decomposition (asciiBytes "/Alice/My%20File.txt") none
      ⟨asciiBytes "Alice/My%20File.txt", by decide⟩ (by decide) (by decide)⟩

/-- C2 counterexample: the invalid escape sequence in `/%ZZ` is passed
through literally by the lenient decoder, so the handler issues a permanent
redirect to `/%25ZZ` instead of the claimed Malformed Encoding error. -/
theorem claim2_counterexample :
    get (asciiBytes "/%ZZ") none = Outcome.redirect (asciiBytes "/%25ZZ") ∧
    get (asciiBytes "/%ZZ") none ≠ Outcome.badRequest := by
  exact ⟨by decide, by decide⟩

/-- C2 (amended): the handler fails with the single client-error outcome
exactly when the percent-decoded path bytes are not valid UTF-8; an invalid
escape sequence alone is not an error, because it is decoded literally. -/
theorem claim2_badRequest_iff (r : List Nat) (q : Option (List Nat)) :
    get r q = Outcome.badRequest ↔ isUtf8 (percentDecode r) = false :=
  get_badRequest_iff r q

/-- C3 counterexample: the empty path decodes and re-encodes to itself, so
it reaches decomposition, whose leading-slash expectation fails — a panic,
not an accepted request. -/
theorem claim3_counterexample :
    get [] none = Outcome.panic ∧ (get [] none).isRedirect = false ∧
    (get [] none).isResolved = false := by
  exact ⟨by decide, by decide, by decide⟩

/-- C3 (amended): every input whose raw path starts with `/` and whose
percent-decoded bytes are valid UTF-8 — whatever the query — completes
without error or panic, producing a Redirect or a Resolved outcome; the
empty path is excluded, since it panics in decomposition. -/
theorem claim3_totality (r : List Nat) (q : Option (List Nat))
    (hs : ∃ t, r = 47 :: t)
    (hu : isUtf8 (percentDecode r) = true) :
    (get r q).isRedirect = true ∨ (get r q).isResolved = true := by
  obtain ⟨t0, rfl⟩ := hs
  by_cases hr : (47 :: t0) = percentEncode (percentDecode (47 :: t0))
  · right
    have hpd : percentDecode (47 :: t0) = 47 :: percentDecode t0 :=
      pd_cons_ne 47 t0 (by decide)
    obtain ⟨o, f, hparse, -⟩ := parse_cons_47 (percentDecode t0)
    rw [get_eq_of_utf8 _ q hu, if_neg (not_not_intro hr), hpd, hparse]
    rfl
  · left
    rw [get_eq_of_utf8 _ q hu, if_pos hr]
    rfl

/-- C3 witness: the amended totality at the concrete input `/a` with an
unknown-key query. -/
theorem claim3_witness :
    isUtf8 (percentDecode (asciiBytes "/a")) = true ∧
    ((get (asciiBytes "/a") (some (asciiBytes "x=1&x=2"))).isRedirect = true ∨
      (get (asciiBytes "/a") (some (asciiBytes "x=1&x=2"))).isResolved = true) :=
  ⟨by decide,
    claim3_totality (asciiBytes "/a") (some (asciiBytes "x=1&x=2"))
      ⟨asciiBytes "a", by decide⟩ (by decide)⟩

/-- C4: for every successfully decoded request, the outcome is a redirect
exactly when the canonical encoding differs from the raw path, and the
redirect target is the canonical encoding followed by `?` and the raw query
when one is present, or the canonical encoding alone otherwise. -/
theorem claim4_redirect_rule (r : List Nat) (q : Option (List Nat))
    (qs : List Nat) (hu : isUtf8 (percentDecode r) = true) :
    ((get r q).isRedirect = true ↔ percentEncode (percentDecode r) ≠ r) ∧
    (percentEncode (percentDecode r) ≠ r →
      get r none = Outcome.redirect (percentEncode (percentDecode r)) ∧
      get r (some qs) =
        Outcome.redirect (percentEncode (percentDecode r) ++ 63 :: qs)) := by
  constructor
  · rw [get_eq_of_utf8 r q hu]
    by_cases hr : r = percentEncode (percentDecode r)
    · rw [if_neg (not_not_intro hr)]
      constructor
      · intro h
        exfalso
        revert h
        cases hp : parse_file_route_path (percentDecode r) with
        | none => simp [Outcome.isRedirect]
        | some of =>
          obtain ⟨o, f⟩ := of
          simp [Outcome.isRedirect]
      · intro h
        exact absurd hr.symm h
    · rw [if_pos hr]
      exact ⟨fun _ => fun h => hr h.symm, fun _ => rfl⟩
  · intro hne
    have hr : (r : List Nat) ≠ percentEncode (percentDecode r) := fun h => hne h.symm
    constructor
    · rw [get_eq_of_utf8 r none hu, if_pos hr]
      rfl
    · rw [get_eq_of_utf8 r (some qs) hu, if_pos hr]
      rfl

/-- C4 witness: the redirect rule at the concrete non-canonical input
`/a b` with query `x=1`. -/
theorem claim4_witness :
    isUtf8 (percentDecode (asciiBytes "/a b")) = true ∧
    (((get (asciiBytes "/a b") none).isRedirect = true ↔
        percentEncode (percentDecode (asciiBytes "/a b")) ≠ asciiBytes "/a b") ∧
      (percentEncode (percentDecode (asciiBytes "/a b")) ≠ asciiBytes "/a b" →
        get (asciiBytes "/a b") none =
          Outcome.redirect (percentEncode (percentDecode (asciiBytes "/a b"))) ∧
        get (asciiBytes "/a b") (some (asciiBytes "x=1")) =
          Outcome.redirect (percentEncode (percentDecode (asciiBytes "/a b")) ++
            63 :: asciiBytes "x=1"))) :=
  ⟨by decide,
    claim4_redirect_rule (asciiBytes "/a b") none (asciiBytes "x=1") (by decide)⟩

/-- C5: the re-encoding step is exactly the spec's rule — percent-encode
every byte except ASCII letters, ASCII digits and `- _ . ! ~ * ' ( ) /` —
and in particular `/` is an allowed byte, so encoding preserves the number
of literal `/` bytes. -/
theorem claim5_escape_set (p : List Nat) (hb : ∀ b ∈ p, b < 256) :
    percentEncode p = specEncode p ∧
    specAllowedByte 47 = true ∧
    (percentEncode p).count 47 = p.count 47 :=
  ⟨percentEncode_eq_specEncode p hb, by decide, count_47_percentEncode p hb⟩

/-- C5 witness: the escape-set agreement at the concrete decoded path
`/a b!`. -/
theorem claim5_witness :
    (∀ b ∈ asciiBytes "/a b!", b < 256) ∧
    (percentEncode (asciiBytes "/a b!") = specEncode (asciiBytes "/a b!") ∧
      specAllowedByte 47 = true ∧
      (percentEncode (asciiBytes "/a b!")).count 47 =
        (asciiBytes "/a b!").count 47) :=
  ⟨by decide, claim5_escape_set (asciiBytes "/a b!") (by decide)⟩

/-- C6: idempotence — decoding the canonical encoding of a valid decoded
path restores it, re-encoding is a fixed point, and canonicalizing the
canonical encoding never redirects. -/
theorem claim6_idempotence (p : List Nat) (q : Option (List Nat))
    (hb : ∀ b ∈ p, b < 256) (hu : isUtf8 p = true) :
    percentDecode (percentEncode p) = p ∧
    percentEncode (percentDecode (percentEncode p)) = percentEncode p ∧
    (get (percentEncode p) q).isRedirect = false := by
  have hrt := percentDecode_percentEncode p hb
  refine ⟨hrt, by rw [hrt], ?_⟩
  have hu' : isUtf8 (percentDecode (percentEncode p)) = true := by
    rw [hrt]
    exact hu
  rw [get_eq_of_utf8 _ q hu', if_neg (not_not_intro (by rw [hrt]))]
  cases parse_file_route_path (percentDecode (percentEncode p)) with
  | none => rfl
  | some of =>
    obtain ⟨o, f⟩ := of
    rfl

/-- C6 witness: idempotence at the concrete decoded path
`/Alice/My File.txt`. -/
theorem claim6_witness :
    (∀ b ∈ asciiBytes "/Alice/My File.txt", b < 256) ∧
    isUtf8 (asciiBytes "/Alice/My File.txt") = true ∧
    (percentDecode (percentEncode (asciiBytes "/Alice/My File.txt")) =
        asciiBytes "/Alice/My File.txt" ∧
      percentEncode (percentDecode (percentEncode
          (asciiBytes "/Alice/My File.txt"))) =
        percentEncode (asciiBytes "/Alice/My File.txt") ∧
      (get (percentEncode (asciiBytes "/Alice/My File.txt")) none).isRedirect =
        false) :=
  ⟨by decide, by decide,
    claim6_idempotence (asciiBytes "/Alice/My File.txt") none
      (by decide) (by decide)⟩

/-- C7: equivalence convergence — two encoded paths decoding to the same
valid Unicode path each either redirect to, or already equal, the one
identical Canonical Encoded Path. -/
theorem claim7_convergence (e1 e2 : List Nat) (q : Option (List Nat))
    (hd : percentDecode e1 = percentDecode e2)
    (hu : isUtf8 (percentDecode e1) = true) :
    (get e1 q = Outcome.redirect
        (concat_path_and_query (percentEncode (percentDecode e1)) q) ∨
      e1 = percentEncode (percentDecode e1)) ∧
    (get e2 q = Outcome.redirect
        (concat_path_and_query (percentEncode (percentDecode e1)) q) ∨
      e2 = percentEncode (percentDecode e1)) := by
  constructor
  · by_cases hr : e1 = percentEncode (percentDecode e1)
    · right
      exact hr
    · left
      rw [get_eq_of_utf8 e1 q hu, if_pos hr]
  · rw [hd]
    by_cases hr : e2 = percentEncode (percentDecode e2)
    · right
      exact hr
    · left
      rw [get_eq_of_utf8 e2 q (hd ▸ hu), if_pos hr]

/-- C7 witness: convergence of the two encodings `/a%41` and `/aA` of the
same decoded path. -/
theorem claim7_witness :
    percentDecode (asciiBytes "/a%41") = percentDecode (asciiBytes "/aA") ∧
    isUtf8 (percentDecode (asciiBytes "/a%41")) = true ∧
    ((get (asciiBytes "/a%41") none = Outcome.redirect
        (concat_path_and_query
          (percentEncode (percentDecode (asciiBytes "/a%41"))) none) ∨
      asciiBytes "/a%41" =
        percentEncode (percentDecode (asciiBytes "/a%41"))) ∧
    (get (asciiBytes "/aA") none = Outcome.redirect
        (concat_path_and_query
          (percentEncode (percentDecode (asciiBytes "/a%41"))) none) ∨
      asciiBytes "/aA" =
        percentEncode (percentDecode (asciiBytes "/a%41")))) :=
  ⟨by decide, by decide,
    claim7_convergence (asciiBytes "/a%41") (asciiBytes "/aA") none
      (by decide) (by decide)⟩

/-- C8: the override identifier is the verbatim value portion of the first
`&`-delimited query segment whose key exactly matches `_id`, and none when
no query is present or no segment's key matches — the source's
strip-the-lead extraction coincides with this rule on every query. -/
theorem claim8_override_extraction (q : Option (List Nat)) :
    get_queried_file_id q = specOverride q := by
  cases q with
  | none => rfl
  | some qs =>
    unfold get_queried_file_id specOverride
    rw [funext stripLead_eq_specSegmentValue]

/-- C9: override independence — an already-canonical path never redirects,
whatever the query string's content or encoding. -/
theorem claim9_override_independence (r : List Nat) (q : Option (List Nat))
    (hc : percentEncode (percentDecode r) = r) :
    (get r q).isRedirect = false := by
  cases hu : isUtf8 (percentDecode r) with
  | false =>
    rw [(get_badRequest_iff r q).mpr hu]
    rfl
  | true =>
    rw [get_eq_of_utf8 r q hu, if_neg (not_not_intro hc.symm)]
    cases parse_file_route_path (percentDecode r) with
    | none => rfl
    | some of =>
      obtain ⟨o, f⟩ := of
      rfl

/-- C9 witness: no redirect for the canonical path `/bob` carrying an
arbitrarily encoded query. -/
theorem claim9_witness :
    percentEncode (percentDecode (asciiBytes "/bob")) = asciiBytes "/bob" ∧
    (get (asciiBytes "/bob") (some (asciiBytes "%%%=&&_x"))).isRedirect =
      false :=
  ⟨by decide,
    claim9_override_independence (asciiBytes "/bob")
      (some (asciiBytes "%%%=&&_x")) (by decide)⟩

/-- C10: round trip of the encoding rule — percent-decoding the canonical
encoding of any byte string restores it exactly, hence the encoder is
injective, and `%` itself is always escaped. -/
theorem claim10_roundtrip (p1 p2 : List Nat)
    (h1 : ∀ b ∈ p1, b < 256) (h2 : ∀ b ∈ p2, b < 256) :
    percentDecode (percentEncode p1) = p1 ∧
    (percentEncode p1 = percentEncode p2 → p1 = p2) ∧
    shouldEscape 37 = true := by
  refine ⟨percentDecode_percentEncode p1 h1, ?_, shouldEscape_37⟩
  intro he
  rw [← percentDecode_percentEncode p1 h1, he,
    percentDecode_percentEncode p2 h2]

/-- C10 witness: the round trip at the concrete byte strings `a%b` and
`/x y`. -/
theorem claim10_witness :
    (∀ b ∈ asciiBytes "a%b", b < 256) ∧
    (∀ b ∈ asciiBytes "/x y", b < 256) ∧
    (percentDecode (percentEncode (asciiBytes "a%b")) = asciiBytes "a%b" ∧
      (percentEncode (asciiBytes "a%b") = percentEncode (asciiBytes "/x y") →
        asciiBytes "a%b" = asciiBytes "/x y") ∧
      shouldEscape 37 = true) :=
  ⟨by decide, by decide,
    claim10_roundtrip (asciiBytes "a%b") (asciiBytes "/x y")
      (by decide) (by decide)⟩

end FileRoute
